import Mathlib

/- Shallow embedding of src/utils/helper.ts.

JavaScript strings are modelled as lists of characters, JS numbers as
rationals, and the external libraries the helpers delegate to (JSON.parse,
toGeoJSON.kml with DOMParser, shpjs, turf.bbox) as function parameters that
may fail.  File reads are tracked by an explicit trace of read operations so
that "no I/O attempted" is expressible.  Mutation of coordinate arrays is
modelled by an explicit heap of arrays addressed by references. -/

set_option linter.unusedVariables false

/-! ## JavaScript string primitives used by the helpers -/

def strLower (s : List Char) : List Char := s.map Char.toLower

def lastIndexOfAux : List Char → Char → Nat → Int → Int
  | [], _, _, acc => acc
  | x :: rest, c, i, acc => lastIndexOfAux rest c (i + 1) (if x = c then (i : Int) else acc)

/-- JS `String.prototype.lastIndexOf` for a single character: index of the
last occurrence, or -1 when the character does not occur. -/
def lastIndexOf (s : List Char) (c : Char) : Int := lastIndexOfAux s c 0 (-1)

/-- JS `String.prototype.slice` with one argument: a negative start counts
from the end (clamped at 0). -/
def jsSlice (s : List Char) (i : Int) : List Char :=
  if i < 0 then s.drop (s.length - min s.length i.natAbs) else s.drop i.toNat

/-- JS `String.prototype.endsWith`. -/
def jsEndsWith (s suf : List Char) : Bool :=
  s.drop (s.length - suf.length) == suf

/-! ## SpatialFileEnum (the TS enum values are the extension strings) -/

def SpatialFileEnum.ZIP : List Char := ".zip".toList

def SpatialFileEnum.KML : List Char := ".kml".toList

def SpatialFileEnum.GEOJSON : List Char := ".geojson".toList

/-- `getSpatialFileType` from src/utils/helper.ts: take the substring from the
last '.', lowercase it, and accept it only if it is one of the recognized
extensions. -/
def getSpatialFileType (name : List Char) : Option (List Char) :=
  let validExtensions := [SpatialFileEnum.ZIP, SpatialFileEnum.KML, SpatialFileEnum.GEOJSON]
  let fileExtension := strLower (jsSlice name (lastIndexOf name '.'))
  if fileExtension ∈ validExtensions then some fileExtension else none

/-! ## File model and the three read paths -/

/-- A `File` value: a name plus its content, available as text (FileReader
readAsText) and as raw bytes (arrayBuffer). -/
structure JSFile where
  name : List Char
  text : List Char
  bytes : List Nat
deriving DecidableEq

/-- Opaque stand-in for the parsed GeoJSON-like document produced by the
external parsing libraries. -/
abbrev GeoDoc := String

/-- The external parsing capabilities used by the read paths: JSON.parse,
DOMParser + toGeoJSON.kml, and shpjs.  Each may fail with an error value. -/
structure ExtLibs where
  jsonParse : List Char → Except String GeoDoc
  kmlParse : List Char → Except String GeoDoc
  shpParse : List Nat → Except String GeoDoc

/-- A promise-rejection value: a bare message string, a caught exception from
a parser, or a constructed Error object. -/
inductive Rej
  | str (s : List Char)
  | exn (e : String)
  | errObj (s : List Char)
deriving DecidableEq

/-- A read of the file content: as text (FileReader.readAsText) or as a
binary buffer (File.arrayBuffer). -/
inductive ReadOp
  | text
  | binary
deriving DecidableEq

/-- `readGeojsonFile`: case-sensitive suffix double-check, then a text read
and JSON.parse; the trace records which reads were performed. -/
def readGeojsonFile (L : ExtLibs) (inputFile : JSFile) : Except Rej GeoDoc × List ReadOp :=
  if jsEndsWith inputFile.name SpatialFileEnum.GEOJSON then
    match L.jsonParse inputFile.text with
    | Except.ok g => (Except.ok g, [ReadOp.text])
    | Except.error e => (Except.error (Rej.exn e), [ReadOp.text])
  else (Except.error (Rej.str "Please upload a valid .geojson file.".toList), [])

/-- `readKmlFile`: case-sensitive suffix double-check, then a text read, XML
parse and KML-to-GeoJSON conversion. -/
def readKmlFile (L : ExtLibs) (inputFile : JSFile) : Except Rej GeoDoc × List ReadOp :=
  if jsEndsWith inputFile.name SpatialFileEnum.KML then
    match L.kmlParse inputFile.text with
    | Except.ok g => (Except.ok g, [ReadOp.text])
    | Except.error e => (Except.error (Rej.exn e), [ReadOp.text])
  else (Except.error (Rej.str "Please upload a valid .kml file.".toList), [])

/-- `readShpInZipFile`: case-sensitive suffix double-check, then a binary
read and shpjs decoding. -/
def readShpInZipFile (L : ExtLibs) (inputFile : JSFile) : Except Rej GeoDoc × List ReadOp :=
  if jsEndsWith inputFile.name SpatialFileEnum.ZIP then
    match L.shpParse inputFile.bytes with
    | Except.ok g => (Except.ok g, [ReadOp.binary])
    | Except.error e => (Except.error (Rej.exn e), [ReadOp.binary])
  else (Except.error (Rej.str "Please upload a valid .zip file.".toList), [])

/-- `getGeojsonData`: detect the spatial file type, dispatch to the matching
read path, otherwise reject with an Error object.  The surrounding try/catch
re-rejects with the same error, so it is the identity on the result. -/
def getGeojsonData (L : ExtLibs) (inputFile : JSFile) : Except Rej GeoDoc × List ReadOp :=
  let spatialFile := getSpatialFileType inputFile.name
  if spatialFile = some SpatialFileEnum.GEOJSON then readGeojsonFile L inputFile
  else if spatialFile = some SpatialFileEnum.KML then readKmlFile L inputFile
  else if spatialFile = some SpatialFileEnum.ZIP then readShpInZipFile L inputFile
  else (Except.error (Rej.errObj "Invalid spatial filetype".toList), [])

/-- A concrete parser bundle whose parsers always succeed, used to evaluate
the loader on concrete files. -/
def okParsers : ExtLibs :=
  ⟨fun _ => Except.ok "json-doc", fun _ => Except.ok "kml-doc", fun _ => Except.ok "shp-doc"⟩

/-! ## JavaScript values and truthiness (for properties objects) -/

/-- A JavaScript value as it occurs in feature property objects: strings,
numbers (NaN kept apart), booleans, null, undefined, and opaque objects. -/
inductive JSVal
  | str (s : List Char)
  | num (n : Int)
  | nan
  | boolean (b : Bool)
  | null
  | undef
  | obj (id : Nat)
deriving DecidableEq

/-- JS truthiness: everything is truthy except the empty string, 0, NaN,
false, null and undefined (objects are always truthy). -/
def truthy : JSVal → Bool
  | JSVal.str s => !s.isEmpty
  | JSVal.num n => n != 0
  | JSVal.nan => false
  | JSVal.boolean b => b
  | JSVal.null => false
  | JSVal.undef => false
  | JSVal.obj _ => true

/-- A JS object literal: keys in enumeration order, each key occurring once. -/
abbrev ObjLit := List (List Char × JSVal)

/-- JS `key in obj`. -/
def keyIn (obj : ObjLit) (k : List Char) : Bool :=
  (obj.find? (fun p => p.1 == k)).isSome

/-- JS `obj[key]`: the stored value, or undefined when the key is absent. -/
def jsGet (obj : ObjLit) (k : List Char) : JSVal :=
  match obj.find? (fun p => p.1 == k) with
  | some p => p.2
  | none => JSVal.undef

/-! ## extractLabelValueFromObj -/

def preferredKeys : List (List Char) :=
  ["name", "nama", "nameobj", "id", "fid", "objectid", "description"].map String.toList

/-- The `for (const key of preferredKeys)` loop with its early return:
the first preferred key that is in the object with a truthy value. -/
def extractLoop (keys : List (List Char)) (obj : ObjLit) : Option JSVal :=
  match keys with
  | [] => none
  | k :: rest =>
    if keyIn obj k && truthy (jsGet obj k) then some (jsGet obj k)
    else extractLoop rest obj

/-- `extractLabelValueFromObj` from src/utils/helper.ts.  After the preferred
keys fail, `Object.keys(obj).find((key) => obj[key])` picks the first key with
a truthy value, and the final ternary tests the truthiness of that key string
itself (an empty-string key is falsy), returning undefined in that case. -/
def extractLabelValueFromObj (obj : ObjLit) : JSVal :=
  match extractLoop preferredKeys obj with
  | some v => v
  | none =>
    match (obj.map Prod.fst).find? (fun k => truthy (jsGet obj k)) with
    | some firstNonFalsyKey =>
      if firstNonFalsyKey.isEmpty then JSVal.undef else jsGet obj firstNonFalsyKey
    | none => JSVal.undef

/-- Spec-side label extraction, following the spec text: first the prioritized
keys in order (present with a truthy value), then the first entry with a truthy
value in natural order — returning undefined when that entry's key is the
empty string (the correction the code forces) — and undefined otherwise. -/
def extractLabelSpec (obj : ObjLit) : JSVal :=
  match preferredKeys.find? (fun k => truthy (jsGet obj k)) with
  | some k => jsGet obj k
  | none =>
    match obj.find? (fun p => truthy p.2) with
    | some p => if p.1.isEmpty then JSVal.undef else p.2
    | none => JSVal.undef

/-! ## propertiesTableDiv -/

/-- The single-quote character used by the HTML templates. -/
def sqc : Char := Char.ofNat 39

/-- JS string coercion used by the `${...}` template interpolation. -/
def jsToString : JSVal → List Char
  | JSVal.str s => s
  | JSVal.num n => (toString n).toList
  | JSVal.nan => "NaN".toList
  | JSVal.boolean true => "true".toList
  | JSVal.boolean false => "false".toList
  | JSVal.null => "null".toList
  | JSVal.undef => "undefined".toList
  | JSVal.obj _ => "[object Object]".toList

/-- One `<tr>` row of the properties table, shaded or not, exactly as the
template literal in the source produces it. -/
def rowStr (shaded : Bool) (k : List Char) (v : JSVal) : List Char :=
  "<tr style=".toList ++ [sqc]
    ++ (if shaded then "background-color: #dddddd".toList else [])
    ++ [sqc] ++ ">\n            <td>".toList ++ k
    ++ "</td>\n            <td style=".toList ++ [sqc]
    ++ "word-break: break-all".toList ++ [sqc] ++ ">".toList
    ++ jsToString v ++ "</td>\n          </tr>".toList

/-- The `for (const key in props)` loop of `propertiesTableDiv`, carrying the
accumulated `listRow`; the shading test reads `listRow.length % 2 === 0` at
push time. -/
def propsRowsLoop : ObjLit → List (List Char) → List (List Char)
  | [], listRow => listRow
  | (k, v) :: rest, listRow =>
    if k == "WKT_GEOMETRY".toList || k == "ogc_fid".toList then propsRowsLoop rest listRow
    else propsRowsLoop rest (listRow ++ [rowStr (listRow.length % 2 == 0) k v])

/-- `propertiesTableDiv` from src/utils/helper.ts. -/
def propertiesTableDiv (props : ObjLit) : List Char :=
  "<table style=".toList ++ [sqc] ++ "border: 1px solid #dddddd".toList
    ++ [sqc] ++ ">".toList ++ (propsRowsLoop props []).flatten ++ "</table>".toList

/-- Spec-side rows: the kept properties in order, row at position `i` (0-based
among emitted rows) shaded exactly when `i` is even. -/
def specRowsFrom (i : Nat) : ObjLit → List (List Char)
  | [] => []
  | (k, v) :: rest => rowStr (i % 2 == 0) k v :: specRowsFrom (i + 1) rest

/-- Spec-side table: one row per property whose key is neither WKT_GEOMETRY
nor ogc_fid, in key order, shaded at even emitted positions. -/
def renderPropertiesTableSpec (props : ObjLit) : List Char :=
  let kept := props.filter (fun p => !(p.1 == "WKT_GEOMETRY".toList || p.1 == "ogc_fid".toList))
  "<table style=".toList ++ [sqc] ++ "border: 1px solid #dddddd".toList
    ++ [sqc] ++ ">".toList ++ (specRowsFrom 0 kept).flatten ++ "</table>".toList

/-! ## getBboxFromGeojson -/

/-- `getBboxFromGeojson` from src/utils/helper.ts: a falsy input yields null,
and the try/catch around `turf.bbox` (passed here as the parameter `alg`)
turns any raised error into null.  The Except layer of the result records
whether an error escapes the function. -/
def getBboxFromGeojson {Geo BBOX Err : Type} (alg : Geo → Except Err BBOX)
    (geojsonData : Option Geo) : Except Err (Option BBOX) :=
  match geojsonData with
  | none => Except.ok none
  | some g =>
    match alg g with
    | Except.ok bbox => Except.ok (some bbox)
    | Except.error _ => Except.ok none

/-! ## Heap of coordinate arrays and getMapLibreCoordinate -/

/-- A heap of JS number arrays; array references are indices into the heap. -/
abbrev Heap := List (List ℚ)

/-- Dereference an array: out-of-range references read as an empty array. -/
def heapRead : Heap → Nat → List ℚ
  | [], _ => []
  | v :: _, 0 => v
  | _ :: rest, n + 1 => heapRead rest n

/-- Overwrite the array stored at a reference. -/
def heapWrite : Heap → Nat → List ℚ → Heap
  | [], _, _ => []
  | _ :: rest, 0, w => w :: rest
  | v :: rest, n + 1, w => v :: heapWrite rest n w

/-- Allocate a fresh array (models `Array.prototype.slice` making a copy). -/
def heapAlloc (h : Heap) (v : List ℚ) : Heap × Nat := (h ++ [v], h.length)

/-- One hit feature of a map event: a reference to its stored geometry
coordinates array, plus its properties object. -/
structure MapFeature where
  coordRef : Nat
  properties : ObjLit
deriving DecidableEq

/-- The MapMouseEvent with its optional `features` array and the click
longitude/latitude.  `features = none` models an absent/undefined field;
`some []` models a present but empty array (which is truthy in JS). -/
structure MapLibreEvent where
  lng : ℚ
  lat : ℚ
  features : Option (List MapFeature)
deriving DecidableEq

/-- The value returned by `getMapLibreCoordinate` on success: a reference to
the (freshly copied, possibly adjusted) coordinates array and the first
feature's properties. -/
structure MLClickResult where
  coordsRef : Nat
  properties : ObjLit
deriving DecidableEq

/-- A thrown JS exception. -/
inductive JsErr
  | typeError
deriving DecidableEq

/-- The `while (Math.abs(e.lngLat.lng - coordinates[0]) > 180)` loop acting on
the longitude component: add or subtract 360 until within 180 of the click
longitude.  The source computes in IEEE-754 doubles; this embedding uses the
exact rationals, so rounding and absorption of the += 360 increments are not
modelled. -/
def wrapLng (lng c : ℚ) : ℚ :=
  if h : 180 < |lng - c| then
    wrapLng lng (if lng > c then c + 360 else c - 360)
  else c
termination_by (Int.toNat ⌈|lng - c|⌉)
decreasing_by
  have h181 : (180 : ℤ) < ⌈|lng - c|⌉ := by
    rw [Int.lt_ceil]
    exact_mod_cast h
  have key : ⌈abs (|lng - c| - 360)⌉.toNat < ⌈|lng - c|⌉.toNat := by
    by_cases hbig : (360 : ℚ) ≤ |lng - c|
    · have h1 : abs (|lng - c| - 360) = |lng - c| - 360 := abs_of_nonneg (by linarith)
      have h2 : ⌈|lng - c| - (360 : ℚ)⌉ = ⌈|lng - c|⌉ - 360 := by
        rw [show ((360 : ℚ)) = ((360 : ℤ) : ℚ) by norm_num, Int.ceil_sub_int]
      have h3 : (360 : ℤ) ≤ ⌈|lng - c|⌉ := by
        have h4 : (359 : ℤ) < ⌈|lng - c|⌉ := by
          rw [Int.lt_ceil]
          push_cast
          linarith
        omega
      rw [h1, h2]
      omega
    · push_neg at hbig
      have h1 : abs (|lng - c| - 360) = 360 - |lng - c| := by
        rw [abs_of_nonpos (by linarith)]
        ring
      have h2 : ⌈(360 : ℚ) - |lng - c|⌉ ≤ 180 := by
        rw [Int.ceil_le]
        push_cast
        linarith
      rw [h1]
      omega
  split
  case isTrue hc =>
    have hp : (0 : ℚ) < lng - c := sub_pos.mpr hc
    have he : |lng - (c + 360)| = abs (|lng - c| - 360) := by
      rw [abs_of_pos hp]
      have hr : lng - (c + 360) = lng - c - 360 := by ring
      rw [hr]
    rw [he]
    exact key
  case isFalse hc =>
    have hp : lng - c ≤ 0 := sub_nonpos.mpr (le_of_not_lt hc)
    have he : |lng - (c - 360)| = abs (|lng - c| - 360) := by
      rw [abs_of_nonpos hp]
      have hr : lng - (c - 360) = -(-(lng - c) - 360) := by ring
      rw [hr, abs_neg]
    rw [he]
    exact key

/-- The adjustment the loop performs on a coordinates array: only the
longitude component (index 0) is rewritten; an empty array is untouched
(the loop condition is NaN > 180, which is false). -/
def adjustLngList (lng : ℚ) : List ℚ → List ℚ
  | [] => []
  | c :: rest => wrapLng lng c :: rest

/-- `getMapLibreCoordinate` from src/utils/helper.ts over the heap model.
An absent `features` field returns undefined; a present but empty features
array passes the `!e.features` guard (arrays are truthy) and then indexing
`e.features[0].geometry` throws a TypeError.  Otherwise the first feature's
coordinates are copied with `.slice()` into a fresh array, the copy's
longitude is wrap-adjusted in place, and the copy is returned together with
the feature's properties. -/
def getMapLibreCoordinate (h : Heap) (e : MapLibreEvent) : Except JsErr (Heap × Option MLClickResult) :=
  match e.features with
  | none => Except.ok (h, none)
  | some [] => Except.error JsErr.typeError
  | some (f :: _) =>
    let coordinates := heapRead h f.coordRef
    let alloc := heapAlloc h coordinates
    let h2 := heapWrite alloc.1 alloc.2 (adjustLngList e.lng coordinates)
    Except.ok (h2, some { coordsRef := alloc.2, properties := f.properties })

/-- Spec-side format detection, following the spec text: the final extension,
case-folded, must match exactly one of the fixed recognized set, giving the
matching lowercase tag; anything else gives none. -/
def detectFormatSpec (finalExt : List Char) : Option (List Char) :=
  if strLower finalExt = SpatialFileEnum.ZIP then some SpatialFileEnum.ZIP
  else if strLower finalExt = SpatialFileEnum.KML then some SpatialFileEnum.KML
  else if strLower finalExt = SpatialFileEnum.GEOJSON then some SpatialFileEnum.GEOJSON
  else none

/-! ## Lemmas about the string primitives -/

theorem lastIndexOfAux_not_mem (l : List Char) (c : Char) (h : c ∉ l) :
    ∀ i acc, lastIndexOfAux l c i acc = acc := by
  induction l with
  | nil => intro i acc; rfl
  | cons x rest ih =>
      intro i acc
      have hx : ¬(x = c) := fun he => h (he ▸ List.mem_cons_self x rest)
      have hr : c ∉ rest := fun hm => h (List.mem_cons_of_mem x hm)
      simp only [lastIndexOfAux, if_neg hx]
      exact ih hr (i + 1) acc

theorem lastIndexOfAux_append (pre l : List Char) (c : Char) :
    ∀ i acc, lastIndexOfAux (pre ++ l) c i acc
      = lastIndexOfAux l c (i + pre.length) (lastIndexOfAux pre c i acc) := by
  induction pre with
  | nil => intro i acc; simp [lastIndexOfAux]
  | cons x rest ih =>
      intro i acc
      show lastIndexOfAux (rest ++ l) c (i + 1) (if x = c then (i : Int) else acc)
          = lastIndexOfAux l c (i + (x :: rest).length)
              (lastIndexOfAux rest c (i + 1) (if x = c then (i : Int) else acc))
      rw [ih]
      have hn : i + 1 + rest.length = i + (x :: rest).length := by
        simp only [List.length_cons]
        omega
      rw [hn]

theorem lastIndexOf_append_dot (pre rest : List Char) (hnd : ('.' : Char) ∉ rest) :
    lastIndexOf (pre ++ '.' :: rest) '.' = (pre.length : Int) := by
  unfold lastIndexOf
  rw [lastIndexOfAux_append]
  show lastIndexOfAux rest '.' (0 + pre.length + 1)
      (if ('.' : Char) = '.' then ((0 + pre.length : Nat) : Int)
       else lastIndexOfAux pre '.' 0 (-1)) = (pre.length : Int)
  rw [if_pos rfl, lastIndexOfAux_not_mem rest '.' hnd]
  omega

theorem jsSlice_append_length (pre l : List Char) :
    jsSlice (pre ++ l) (pre.length : Int) = l := by
  unfold jsSlice
  rw [if_neg (by omega), Int.toNat_natCast, List.drop_left]

theorem jsEndsWith_iff (s suf : List Char) : jsEndsWith s suf = true ↔ ∃ pre, s = pre ++ suf := by
  constructor
  · intro h
    have hd : s.drop (s.length - suf.length) = suf := by
      have hb : (s.drop (s.length - suf.length) == suf) = true := h
      exact eq_of_beq hb
    refine ⟨s.take (s.length - suf.length), ?_⟩
    conv_lhs => rw [← List.take_append_drop (s.length - suf.length) s]
    rw [hd]
  · rintro ⟨pre, rfl⟩
    have hl : (pre ++ suf).length - suf.length = pre.length := by
      simp [List.length_append]
    simp [jsEndsWith, hl, List.drop_left]

/-! ## Lemmas about getSpatialFileType -/

theorem getSpatialFileType_append (pre rest : List Char) (hnd : ('.' : Char) ∉ rest) :
    getSpatialFileType (pre ++ '.' :: rest)
      = (if strLower ('.' :: rest)
            ∈ [SpatialFileEnum.ZIP, SpatialFileEnum.KML, SpatialFileEnum.GEOJSON]
         then some (strLower ('.' :: rest)) else none) := by
  have h1 : lastIndexOf (pre ++ '.' :: rest) '.' = (pre.length : Int) :=
    lastIndexOf_append_dot pre rest hnd
  have h2 : jsSlice (pre ++ '.' :: rest) (pre.length : Int) = '.' :: rest :=
    jsSlice_append_length pre ('.' :: rest)
  simp only [getSpatialFileType, h1, h2]

theorem valid_mem_eq_detect (x : List Char) :
    (if x ∈ [SpatialFileEnum.ZIP, SpatialFileEnum.KML, SpatialFileEnum.GEOJSON]
     then some x else none)
      = (if x = SpatialFileEnum.ZIP then some SpatialFileEnum.ZIP
         else if x = SpatialFileEnum.KML then some SpatialFileEnum.KML
         else if x = SpatialFileEnum.GEOJSON then some SpatialFileEnum.GEOJSON
         else none) := by
  by_cases h1 : x = SpatialFileEnum.ZIP
  · subst h1; decide
  by_cases h2 : x = SpatialFileEnum.KML
  · subst h2; decide
  by_cases h3 : x = SpatialFileEnum.GEOJSON
  · subst h3; decide
  simp [h1, h2, h3]

theorem getSpatialFileType_no_dot (name : List Char) (h : ('.' : Char) ∉ name) :
    getSpatialFileType name = none := by
  have hli : lastIndexOf name '.' = -1 := lastIndexOfAux_not_mem name '.' h 0 (-1)
  have hlen : (strLower (jsSlice name (-1))).length ≤ 1 := by
    unfold jsSlice strLower
    rw [if_pos (by norm_num : (-1 : Int) < 0)]
    rw [List.length_map, List.length_drop]
    have : (-1 : Int).natAbs = 1 := rfl
    rw [this]
    omega
  simp only [getSpatialFileType, hli]
  have hnm : strLower (jsSlice name (-1))
      ∉ [SpatialFileEnum.ZIP, SpatialFileEnum.KML, SpatialFileEnum.GEOJSON] := by
    intro hmem
    rcases List.mem_cons.mp hmem with h1 | hmem2
    · rw [h1] at hlen; exact absurd hlen (by decide)
    · rcases List.mem_cons.mp hmem2 with h2 | hmem3
      · rw [h2] at hlen; exact absurd hlen (by decide)
      · rcases List.mem_cons.mp hmem3 with h3 | hmem4
        · rw [h3] at hlen; exact absurd hlen (by decide)
        · exact absurd hmem4 (List.not_mem_nil _)
  rw [if_neg hnm]

theorem getSpatialFileType_of_endsWith (name tail : List Char) (hnd : ('.' : Char) ∉ tail)
    (h : jsEndsWith name ('.' :: tail) = true) :
    getSpatialFileType name
      = (if strLower ('.' :: tail)
            ∈ [SpatialFileEnum.ZIP, SpatialFileEnum.KML, SpatialFileEnum.GEOJSON]
         then some (strLower ('.' :: tail)) else none) := by
  obtain ⟨pre, rfl⟩ := (jsEndsWith_iff _ _).mp h
  exact getSpatialFileType_append pre tail hnd

theorem detect_geojson_of_endsWith (name : List Char)
    (h : jsEndsWith name SpatialFileEnum.GEOJSON = true) :
    getSpatialFileType name = some SpatialFileEnum.GEOJSON := by
  have hG : SpatialFileEnum.GEOJSON = '.' :: "geojson".toList := by decide
  rw [hG] at h
  rw [getSpatialFileType_of_endsWith name "geojson".toList (by decide) h]
  decide

theorem detect_kml_of_endsWith (name : List Char)
    (h : jsEndsWith name SpatialFileEnum.KML = true) :
    getSpatialFileType name = some SpatialFileEnum.KML := by
  have hK : SpatialFileEnum.KML = '.' :: "kml".toList := by decide
  rw [hK] at h
  rw [getSpatialFileType_of_endsWith name "kml".toList (by decide) h]
  decide

theorem detect_zip_of_endsWith (name : List Char)
    (h : jsEndsWith name SpatialFileEnum.ZIP = true) :
    getSpatialFileType name = some SpatialFileEnum.ZIP := by
  have hZ : SpatialFileEnum.ZIP = '.' :: "zip".toList := by decide
  rw [hZ] at h
  rw [getSpatialFileType_of_endsWith name "zip".toList (by decide) h]
  decide

/-- C3: for every filename whose final extension — the substring from the last
dot, so no later dot occurs in it — is a letter-case variant of .zip, .kml or
.geojson, getSpatialFileType returns the matching lowercase format tag, and
every other filename, including filenames without a dot, yields none. -/
theorem getSpatialFileType_matches_detectFormatSpec :
    (∀ pre rest : List Char, ('.' : Char) ∉ rest →
        getSpatialFileType (pre ++ '.' :: rest) = detectFormatSpec ('.' :: rest)) ∧
    (∀ name : List Char, ('.' : Char) ∉ name → getSpatialFileType name = none) := by
  constructor
  · intro pre rest hnd
    rw [getSpatialFileType_append pre rest hnd, valid_mem_eq_detect]
    rfl
  · intro name h
    exact getSpatialFileType_no_dot name h

/-- Witness for C3 at concrete filenames: x.KmL is detected as .kml, and a
filename without a dot is rejected. -/
theorem getSpatialFileType_matches_detectFormatSpec_witness :
    getSpatialFileType ("x".toList ++ '.' :: "KmL".toList) = detectFormatSpec ('.' :: "KmL".toList) ∧
    getSpatialFileType "nodot".toList = none := by
  constructor
  · exact getSpatialFileType_matches_detectFormatSpec.1 "x".toList "KmL".toList (by decide)
  · exact getSpatialFileType_matches_detectFormatSpec.2 "nodot".toList (by decide)

/-- C1 counterexample: the file X.GEOJSON is accepted by the case-insensitive
detection (the geojson tag is returned) and its content parses, yet
getGeojsonData rejects it with the read path's message and performs no read:
the defensive endsWith double-check is case-sensitive and refuses what the
detection accepted. -/
theorem getGeojsonData_uppercase_detected_but_rejected :
    getSpatialFileType "X.GEOJSON".toList = some SpatialFileEnum.GEOJSON ∧
    getGeojsonData okParsers ⟨"X.GEOJSON".toList, "content".toList, []⟩
      = (Except.error (Rej.str "Please upload a valid .geojson file.".toList), []) := by
  constructor
  · decide
  · rfl

/-- C1 (amended): getGeojsonData dispatches to the matching read path and
resolves for every well-formed file whose name ends in the recognized
extension written in lowercase; when the case-insensitive detection accepts a
filename whose suffix is not exactly lowercase, the dispatched read path's
case-sensitive double-check rejects it without reading. -/
theorem getGeojsonData_lowercase_dispatch :
    (∀ (L : ExtLibs) (f : JSFile) (g : GeoDoc),
        jsEndsWith f.name SpatialFileEnum.GEOJSON = true →
        L.jsonParse f.text = Except.ok g →
        getGeojsonData L f = (Except.ok g, [ReadOp.text])) ∧
    (∀ (L : ExtLibs) (f : JSFile) (g : GeoDoc),
        jsEndsWith f.name SpatialFileEnum.KML = true →
        L.kmlParse f.text = Except.ok g →
        getGeojsonData L f = (Except.ok g, [ReadOp.text])) ∧
    (∀ (L : ExtLibs) (f : JSFile) (g : GeoDoc),
        jsEndsWith f.name SpatialFileEnum.ZIP = true →
        L.shpParse f.bytes = Except.ok g →
        getGeojsonData L f = (Except.ok g, [ReadOp.binary])) ∧
    (∀ (L : ExtLibs) (f : JSFile),
        getSpatialFileType f.name = some SpatialFileEnum.GEOJSON →
        jsEndsWith f.name SpatialFileEnum.GEOJSON = false →
        getGeojsonData L f
          = (Except.error (Rej.str "Please upload a valid .geojson file.".toList), [])) ∧
    (∀ (L : ExtLibs) (f : JSFile),
        getSpatialFileType f.name = some SpatialFileEnum.KML →
        jsEndsWith f.name SpatialFileEnum.KML = false →
        getGeojsonData L f
          = (Except.error (Rej.str "Please upload a valid .kml file.".toList), [])) ∧
    (∀ (L : ExtLibs) (f : JSFile),
        getSpatialFileType f.name = some SpatialFileEnum.ZIP →
        jsEndsWith f.name SpatialFileEnum.ZIP = false →
        getGeojsonData L f
          = (Except.error (Rej.str "Please upload a valid .zip file.".toList), [])) := by
  have hne1 : (SpatialFileEnum.KML : List Char) ≠ SpatialFileEnum.GEOJSON := by decide
  have hne2 : (SpatialFileEnum.ZIP : List Char) ≠ SpatialFileEnum.GEOJSON := by decide
  have hne3 : (SpatialFileEnum.ZIP : List Char) ≠ SpatialFileEnum.KML := by decide
  refine ⟨?_, ?_, ?_, ?_, ?_, ?_⟩
  · intro L f g hend hparse
    have hdet := detect_geojson_of_endsWith f.name hend
    simp [getGeojsonData, readGeojsonFile, hdet, hend, hparse]
  · intro L f g hend hparse
    have hdet := detect_kml_of_endsWith f.name hend
    simp [getGeojsonData, readKmlFile, hdet, hend, hparse, hne1]
  · intro L f g hend hparse
    have hdet := detect_zip_of_endsWith f.name hend
    simp [getGeojsonData, readShpInZipFile, hdet, hend, hparse, hne2, hne3]
  · intro L f hdet hend
    simp [getGeojsonData, readGeojsonFile, hdet, hend]
  · intro L f hdet hend
    simp [getGeojsonData, readKmlFile, hdet, hend, hne1]
  · intro L f hdet hend
    simp [getGeojsonData, readShpInZipFile, hdet, hend, hne2, hne3]

/-- Witness for C1 at concrete files: all three lowercase suffixes resolve
through the matching read path, and the detected-but-not-lowercase B.KML is
rejected by the kml read path. -/
theorem getGeojsonData_lowercase_dispatch_witness :
    getGeojsonData okParsers ⟨"a.geojson".toList, "content".toList, []⟩
      = (Except.ok "json-doc", [ReadOp.text]) ∧
    getGeojsonData okParsers ⟨"a.kml".toList, "content".toList, []⟩
      = (Except.ok "kml-doc", [ReadOp.text]) ∧
    getGeojsonData okParsers ⟨"a.zip".toList, "content".toList, [7]⟩
      = (Except.ok "shp-doc", [ReadOp.binary]) ∧
    getGeojsonData okParsers ⟨"B.KML".toList, "content".toList, []⟩
      = (Except.error (Rej.str "Please upload a valid .kml file.".toList), []) := by
  refine ⟨?_, ?_, ?_, ?_⟩
  · exact getGeojsonData_lowercase_dispatch.1 okParsers _ _ (by decide) rfl
  · exact getGeojsonData_lowercase_dispatch.2.1 okParsers _ _ (by decide) rfl
  · exact getGeojsonData_lowercase_dispatch.2.2.1 okParsers _ _ (by decide) rfl
  · exact getGeojsonData_lowercase_dispatch.2.2.2.2.1 okParsers _ (by decide) (by decide)

/-- C4: when the detected spatial file type is none (unrecognized or missing
extension), getGeojsonData rejects immediately with the Invalid spatial
filetype error and the read trace is empty: no text read and no binary read
is attempted. -/
theorem getGeojsonData_unrecognized_no_read :
    ∀ (L : ExtLibs) (f : JSFile), getSpatialFileType f.name = none →
      getGeojsonData L f = (Except.error (Rej.errObj "Invalid spatial filetype".toList), []) := by
  intro L f hdet
  simp [getGeojsonData, hdet]

/-- Witness for C4: a file named x.txt is rejected with no read attempted. -/
theorem getGeojsonData_unrecognized_no_read_witness :
    getGeojsonData okParsers ⟨"x.txt".toList, "content".toList, []⟩
      = (Except.error (Rej.errObj "Invalid spatial filetype".toList), []) :=
  getGeojsonData_unrecognized_no_read okParsers ⟨"x.txt".toList, "content".toList, []⟩ (by decide)

/-! ## Lemmas about extractLabelValueFromObj -/

theorem jsGet_of_not_keyIn (obj : ObjLit) (k : List Char) (h : keyIn obj k = false) :
    jsGet obj k = JSVal.undef := by
  unfold keyIn at h
  unfold jsGet
  cases hf : obj.find? (fun p => p.1 == k) with
  | none => rfl
  | some p => rw [hf] at h; simp at h

theorem extractLoop_eq_find (obj : ObjLit) :
    ∀ keys, extractLoop keys obj
      = (keys.find? (fun k => truthy (jsGet obj k))).map (jsGet obj) := by
  intro keys
  induction keys with
  | nil => rfl
  | cons k rest ih =>
      by_cases ht : truthy (jsGet obj k) = true
      · have hk : keyIn obj k = true := by
          by_contra hkf
          have hkf2 : keyIn obj k = false := by simpa using hkf
          rw [jsGet_of_not_keyIn obj k hkf2] at ht
          simp [truthy] at ht
        simp [extractLoop, List.find?, hk, ht]
      · have ht2 : truthy (jsGet obj k) = false := by simpa using ht
        simp [extractLoop, List.find?, ht2, ih]

theorem find?_congr_mem {α : Type} (l : List α) (p q : α → Bool)
    (h : ∀ x ∈ l, p x = q x) : l.find? p = l.find? q := by
  induction l with
  | nil => rfl
  | cons a l ih =>
      have ha := h a (List.mem_cons_self a l)
      cases hq : q a with
      | true => simp [List.find?, ha, hq]
      | false =>
          simp only [List.find?, ha, hq]
          exact ih (fun x hx => h x (List.mem_cons_of_mem a hx))

theorem jsGet_cons_self (k : List Char) (v : JSVal) (rest : ObjLit) :
    jsGet ((k, v) :: rest) k = v := by
  simp [jsGet, List.find?]

theorem jsGet_cons_ne (k k₀ : List Char) (v : JSVal) (rest : ObjLit) (h : k ≠ k₀) :
    jsGet ((k, v) :: rest) k₀ = jsGet rest k₀ := by
  have hb : (k == k₀) = false := beq_eq_false_iff_ne.mpr h
  simp [jsGet, List.find?, hb]

theorem fallback_agree (obj : ObjLit) (hn : (obj.map Prod.fst).Nodup) :
    (match (obj.map Prod.fst).find? (fun k => truthy (jsGet obj k)) with
     | some k => if k.isEmpty then JSVal.undef else jsGet obj k
     | none => JSVal.undef)
    = (match obj.find? (fun p => truthy p.2) with
       | some p => if p.1.isEmpty then JSVal.undef else p.2
       | none => JSVal.undef) := by
  induction obj with
  | nil => rfl
  | cons hd rest ih =>
      obtain ⟨k, v⟩ := hd
      rw [List.map_cons, List.nodup_cons] at hn
      obtain ⟨hk, hrest⟩ := hn
      have hv : jsGet ((k, v) :: rest) k = v := jsGet_cons_self k v rest
      by_cases ht : truthy v = true
      · simp [List.find?, hv, ht]
      · have ht2 : truthy v = false := by simpa using ht
        have hcongr : (rest.map Prod.fst).find? (fun k₀ => truthy (jsGet ((k, v) :: rest) k₀))
            = (rest.map Prod.fst).find? (fun k₀ => truthy (jsGet rest k₀)) := by
          apply find?_congr_mem
          intro x hx
          have hne : k ≠ x := fun he => hk (he ▸ hx)
          rw [jsGet_cons_ne k x v rest hne]
        have hstep : ((k, v) :: rest).find? (fun p => truthy p.2) = rest.find? (fun p => truthy p.2) := by
          simp [List.find?, ht2]
        have hfst : (((k, v) :: rest).map Prod.fst).find? (fun k₀ => truthy (jsGet ((k, v) :: rest) k₀))
            = (rest.map Prod.fst).find? (fun k₀ => truthy (jsGet rest k₀)) := by
          rw [List.map_cons]
          have hhead : (truthy (jsGet ((k, v) :: rest) k)) = false := by rw [hv]; exact ht2
          simp only [List.find?, hhead]
          exact hcongr
        rw [hfst, hstep]
        cases hfind : (rest.map Prod.fst).find? (fun k₀ => truthy (jsGet rest k₀)) with
        | none => rw [hfind] at ih; exact ih hrest
        | some k₀ =>
            have hmem : k₀ ∈ rest.map Prod.fst := List.mem_of_find?_eq_some hfind
            have hne : k ≠ k₀ := fun he => hk (he ▸ hmem)
            rw [hfind] at ih
            have ih2 := ih hrest
            show (if k₀.isEmpty then JSVal.undef else jsGet ((k, v) :: rest) k₀)
                = match rest.find? (fun p => truthy p.2) with
                  | some p => if p.1.isEmpty then JSVal.undef else p.2
                  | none => JSVal.undef
            rw [jsGet_cons_ne k k₀ v rest hne]
            exact ih2

/-- C5 counterexample: an object whose only key is the empty string with the
truthy value "x".  The claim says the first truthy value ("x") is returned,
but the final ternary in the source tests the truthiness of the found key
string itself, and the empty-string key is falsy, so undefined is returned. -/
theorem extractLabelValueFromObj_empty_key_counterexample :
    extractLabelValueFromObj [(("" : String).toList, JSVal.str "x".toList)] = JSVal.undef ∧
    truthy (JSVal.str "x".toList) = true := by
  constructor
  · decide
  · decide

/-- C5 (amended): for every property mapping (distinct keys),
extractLabelValueFromObj returns the value of the first prioritized key
(name, nama, nameobj, id, fid, objectid, description — case-sensitive)
present with a truthy value; otherwise the first truthy value among the
entries in their natural order — except that when the key of that first
truthy entry is the empty string, undefined is returned — and undefined when
no key has a truthy value. -/
theorem extractLabelValueFromObj_eq_spec :
    ∀ obj : ObjLit, (obj.map Prod.fst).Nodup →
      extractLabelValueFromObj obj = extractLabelSpec obj := by
  intro obj hn
  unfold extractLabelValueFromObj extractLabelSpec
  rw [extractLoop_eq_find]
  cases hf : preferredKeys.find? (fun k => truthy (jsGet obj k)) with
  | some k => simp
  | none => simpa using fallback_agree obj hn

/-- Witness for C5 on a concrete object: the prioritized keys are absent,
foo is falsy, so bar's value is returned, matching the spec description. -/
theorem extractLabelValueFromObj_eq_spec_witness :
    extractLabelValueFromObj [("foo".toList, JSVal.str "".toList), ("bar".toList, JSVal.num 3)]
      = extractLabelSpec [("foo".toList, JSVal.str "".toList), ("bar".toList, JSVal.num 3)] :=
  extractLabelValueFromObj_eq_spec _ (by decide)

/-! ## Lemmas about propertiesTableDiv -/

theorem propsRowsLoop_eq (props : ObjLit) :
    ∀ acc : List (List Char),
      propsRowsLoop props acc
        = acc ++ specRowsFrom acc.length
            (props.filter (fun p => !(p.1 == "WKT_GEOMETRY".toList || p.1 == "ogc_fid".toList))) := by
  induction props with
  | nil => intro acc; simp [propsRowsLoop, specRowsFrom]
  | cons hd rest ih =>
      intro acc
      obtain ⟨k, v⟩ := hd
      by_cases hk : (k == "WKT_GEOMETRY".toList || k == "ogc_fid".toList) = true
      · have hpred : (!(k == "WKT_GEOMETRY".toList || k == "ogc_fid".toList)) = false := by
          rw [hk]
          rfl
        have hfil : ((k, v) :: rest).filter
            (fun p => !(p.1 == "WKT_GEOMETRY".toList || p.1 == "ogc_fid".toList))
            = rest.filter (fun p => !(p.1 == "WKT_GEOMETRY".toList || p.1 == "ogc_fid".toList)) := by
          rw [List.filter_cons, if_neg (fun hcontra => by rw [hpred] at hcontra; cases hcontra)]
        rw [hfil]
        simp only [propsRowsLoop, if_pos hk]
        exact ih acc
      · have hk2 : (k == "WKT_GEOMETRY".toList || k == "ogc_fid".toList) = false := by
          simpa using hk
        have hpred : (!(k == "WKT_GEOMETRY".toList || k == "ogc_fid".toList)) = true := by
          rw [hk2]
          rfl
        have hfil : ((k, v) :: rest).filter
            (fun p => !(p.1 == "WKT_GEOMETRY".toList || p.1 == "ogc_fid".toList))
            = (k, v) :: rest.filter (fun p => !(p.1 == "WKT_GEOMETRY".toList || p.1 == "ogc_fid".toList)) := by
          rw [List.filter_cons, if_pos hpred]
        rw [hfil]
        simp only [propsRowsLoop, hk2, if_neg (by simp : ¬(false = true))]
        rw [ih (acc ++ [rowStr (acc.length % 2 == 0) k v])]
        simp only [specRowsFrom, List.length_append, List.length_cons, List.length_nil]
        rw [List.append_assoc]
        rfl

/-- C8: propertiesTableDiv produces the table markup with exactly one row per
property whose key is neither WKT_GEOMETRY nor ogc_fid, in key order, a row
being shaded exactly when its 0-based position among the emitted rows is
even. -/
theorem propertiesTableDiv_eq_spec :
    ∀ props : ObjLit, propertiesTableDiv props = renderPropertiesTableSpec props := by
  intro props
  unfold propertiesTableDiv renderPropertiesTableSpec
  rw [propsRowsLoop_eq]
  simp

/-- C7: getBboxFromGeojson never lets an error escape: the result is always
an ok value, which is none for an absent input or a raising bounds algorithm,
and the computed box otherwise. -/
theorem getBboxFromGeojson_never_throws :
    ∀ {Geo BBOX Err : Type} (alg : Geo → Except Err BBOX) (g : Option Geo),
      ∃ r : Option BBOX, getBboxFromGeojson alg g = Except.ok r ∧
        (g = none → r = none) ∧
        (∀ gd b, g = some gd → alg gd = Except.ok b → r = some b) ∧
        (∀ gd e, g = some gd → alg gd = Except.error e → r = none) := by
  intro Geo BBOX Err alg g
  cases g with
  | none =>
      refine ⟨none, rfl, fun _ => rfl, ?_, ?_⟩
      · intro gd b h
        cases h
      · intro gd e h
        cases h
  | some gd =>
      cases halg : alg gd with
      | ok b =>
          refine ⟨some b, ?_, ?_, ?_, ?_⟩
          · simp [getBboxFromGeojson, halg]
          · intro h; cases h
          · intro gd' b' hg hb
            cases hg
            rw [halg] at hb
            cases hb
            rfl
          · intro gd' e hg he
            cases hg
            rw [halg] at he
            cases he
      | error e =>
          refine ⟨none, ?_, ?_, ?_, ?_⟩
          · simp [getBboxFromGeojson, halg]
          · intro h; cases h
          · intro gd' b' hg hb
            cases hg
            rw [halg] at hb
            cases hb
          · intro gd' e' hg he
            rfl

/-- Witness for C7: with a bounds algorithm that raises, the function still
returns ok, with the none result. -/
theorem getBboxFromGeojson_never_throws_witness :
    getBboxFromGeojson (fun _ : Nat => (Except.error "boom" : Except String Nat)) (some 5)
      = Except.ok (none : Option Nat) := by
  obtain ⟨r, hr, _, _, h3⟩ :=
    getBboxFromGeojson_never_throws (fun _ : Nat => (Except.error "boom" : Except String Nat)) (some 5)
  rw [h3 5 "boom" rfl rfl] at hr
  exact hr

/-! ## Lemmas about the wrap-around loop -/

theorem wrapLng_abs_le (lng c : ℚ) : |lng - wrapLng lng c| ≤ 180 := by
  refine wrapLng.induct lng (fun x => |lng - wrapLng lng x| ≤ 180) ?_ ?_ c
  · intro x hcond ih
    rw [wrapLng.eq_def, dif_pos hcond]
    simpa using ih
  · intro x hcond
    rw [wrapLng.eq_def, dif_neg hcond]
    exact le_of_not_lt hcond

theorem wrapLng_sub_int (lng c : ℚ) : ∃ k : ℤ, wrapLng lng c = c + 360 * (k : ℚ) := by
  refine wrapLng.induct lng (fun x => ∃ k : ℤ, wrapLng lng x = x + 360 * (k : ℚ)) ?_ ?_ c
  · intro x hcond ih
    rw [wrapLng.eq_def, dif_pos hcond]
    by_cases hgt : lng > x
    · rw [dif_pos hgt] at ih
      rw [if_pos hgt]
      obtain ⟨k, hk⟩ := ih
      refine ⟨k + 1, ?_⟩
      rw [hk]
      push_cast
      ring
    · rw [dif_neg hgt] at ih
      rw [if_neg hgt]
      obtain ⟨k, hk⟩ := ih
      refine ⟨k - 1, ?_⟩
      rw [hk]
      push_cast
      ring
  · intro x hcond
    refine ⟨0, ?_⟩
    rw [wrapLng.eq_def, dif_neg hcond]
    push_cast
    ring

/-! ## Lemmas about the heap -/

theorem heapRead_append (h : Heap) (v : List ℚ) :
    ∀ r : Nat, r < h.length → heapRead (h ++ [v]) r = heapRead h r := by
  induction h with
  | nil => intro r hr; exact absurd hr (Nat.not_lt_zero r)
  | cons a rest ih =>
      intro r hr
      cases r with
      | zero => rfl
      | succ n => exact ih n (Nat.lt_of_succ_lt_succ hr)

theorem heapRead_write_ne (v : List ℚ) (h : Heap) :
    ∀ r w : Nat, r ≠ w → heapRead (heapWrite h w v) r = heapRead h r := by
  induction h with
  | nil => intro r w hne; rfl
  | cons a rest ih =>
      intro r w hne
      cases w with
      | zero =>
          cases r with
          | zero => exact absurd rfl hne
          | succ n => rfl
      | succ m =>
          cases r with
          | zero => rfl
          | succ n => exact ih n m (fun he => hne (by rw [he]))

theorem heapRead_write_eq (v : List ℚ) (h : Heap) :
    ∀ w : Nat, w < h.length → heapRead (heapWrite h w v) w = v := by
  induction h with
  | nil => intro w hw; exact absurd hw (Nat.not_lt_zero w)
  | cons a rest ih =>
      intro w hw
      cases w with
      | zero => rfl
      | succ m => exact ih m (Nat.lt_of_succ_lt_succ hw)

theorem heapWrite_append_read (h : Heap) (v w : List ℚ) :
    heapRead (heapWrite (h ++ [v]) h.length w) h.length = w := by
  apply heapRead_write_eq
  simp

theorem heapRead_after_allocWrite (h : Heap) (v w : List ℚ) (r : Nat) (hr : r < h.length) :
    heapRead (heapWrite (h ++ [v]) h.length w) r = heapRead h r := by
  rw [heapRead_write_ne w (h ++ [v]) r h.length (Nat.ne_of_lt hr)]
  exact heapRead_append h v r hr

theorem getMapLibreCoordinate_cons (h : Heap) (e : MapLibreEvent) (f : MapFeature)
    (rest : List MapFeature) (hf : e.features = some (f :: rest)) :
    getMapLibreCoordinate h e
      = Except.ok (heapWrite (h ++ [heapRead h f.coordRef]) h.length
            (adjustLngList e.lng (heapRead h f.coordRef)),
          some ⟨h.length, f.properties⟩) := by
  unfold getMapLibreCoordinate
  rw [hf]
  rfl

/-- C2 counterexample: an event with a present but empty features array.  The
`!e.features` guard does not trigger (an empty array is truthy in JS), and
indexing the first feature throws a TypeError instead of returning none. -/
theorem getMapLibreCoordinate_empty_features_throws :
    getMapLibreCoordinate [] ⟨0, 0, some []⟩ = Except.error JsErr.typeError := rfl

/-- C2 (amended): getMapLibreCoordinate returns undefined exactly when the
features field is absent; an event carrying a present but empty features list
makes the access of the first feature throw a TypeError rather than return
none; and with at least one hit feature it returns the first feature's
(wrap-adjusted) coordinates and that feature's property mapping. -/
theorem getMapLibreCoordinate_features_cases :
    ∀ (h : Heap) (e : MapLibreEvent),
      (e.features = none → getMapLibreCoordinate h e = Except.ok (h, none)) ∧
      (e.features = some [] → getMapLibreCoordinate h e = Except.error JsErr.typeError) ∧
      (∀ (f : MapFeature) (rest : List MapFeature), e.features = some (f :: rest) →
        ∃ (h2 : Heap) (res : MLClickResult),
          getMapLibreCoordinate h e = Except.ok (h2, some res) ∧
          heapRead h2 res.coordsRef = adjustLngList e.lng (heapRead h f.coordRef) ∧
          res.properties = f.properties) := by
  intro h e
  refine ⟨?_, ?_, ?_⟩
  · intro hf
    unfold getMapLibreCoordinate
    rw [hf]
  · intro hf
    unfold getMapLibreCoordinate
    rw [hf]
  · intro f rest hf
    refine ⟨_, _, getMapLibreCoordinate_cons h e f rest hf, ?_, rfl⟩
    exact heapWrite_append_read h (heapRead h f.coordRef) (adjustLngList e.lng (heapRead h f.coordRef))

/-- Witness for C2: an event without a features field yields undefined, and a
one-feature event yields the feature's adjusted coordinates and properties. -/
theorem getMapLibreCoordinate_features_cases_witness :
    getMapLibreCoordinate [] ⟨1, 2, none⟩ = Except.ok ([], none) ∧
    (∃ (h2 : Heap) (res : MLClickResult),
      getMapLibreCoordinate [[10, 20]] ⟨15, 0, some [⟨0, []⟩]⟩ = Except.ok (h2, some res) ∧
      heapRead h2 res.coordsRef = adjustLngList 15 (heapRead [[10, 20]] 0) ∧
      res.properties = []) := by
  constructor
  · exact (getMapLibreCoordinate_features_cases [] ⟨1, 2, none⟩).1 rfl
  · exact (getMapLibreCoordinate_features_cases [[10, 20]] ⟨15, 0, some [⟨0, []⟩]⟩).2.2 ⟨0, []⟩ [] rfl

/-- C9: getMapLibreCoordinate does not mutate its input: the returned
coordinates array is a fresh reference (the next heap cell), distinct from the
feature's stored array, every pre-existing array reads unchanged after the
call — in particular the first feature's stored coordinates — even when the
adjustment alters the returned longitude. -/
theorem getMapLibreCoordinate_no_mutation :
    ∀ (h : Heap) (e : MapLibreEvent) (f : MapFeature) (rest : List MapFeature),
      e.features = some (f :: rest) → f.coordRef < h.length →
      ∃ (h2 : Heap) (res : MLClickResult),
        getMapLibreCoordinate h e = Except.ok (h2, some res) ∧
        res.coordsRef = h.length ∧
        res.coordsRef ≠ f.coordRef ∧
        heapRead h2 f.coordRef = heapRead h f.coordRef ∧
        (∀ r : Nat, r < h.length → heapRead h2 r = heapRead h r) := by
  intro h e f rest hf hr
  refine ⟨_, _, getMapLibreCoordinate_cons h e f rest hf, rfl, ?_, ?_, ?_⟩
  · exact (Nat.ne_of_lt hr).symm
  · exact heapRead_after_allocWrite h _ _ f.coordRef hr
  · intro r hrr
    exact heapRead_after_allocWrite h _ _ r hrr

/-- Witness for C9: click longitude 170 against stored longitude -170 — the
returned longitude is adjusted, yet the stored array still reads [-170, 5]. -/
theorem getMapLibreCoordinate_no_mutation_witness :
    ∃ (h2 : Heap) (res : MLClickResult),
      getMapLibreCoordinate [[-170, 5]] ⟨170, 0, some [⟨0, []⟩]⟩ = Except.ok (h2, some res) ∧
      res.coordsRef = 1 ∧
      res.coordsRef ≠ 0 ∧
      heapRead h2 0 = heapRead [[-170, 5]] 0 ∧
      (∀ r : Nat, r < 1 → heapRead h2 r = heapRead [[-170, 5]] r) :=
  getMapLibreCoordinate_no_mutation [[-170, 5]] ⟨170, 0, some [⟨0, []⟩]⟩ ⟨0, []⟩ [] rfl (by decide)

